import Mathlib

/-!
Shallow embedding of the `blendshape_mirrorer` Maya tool (`src/core.py`,
`src/view.py`).

Python strings are modelled as `List Char`; the Maya / Qt host responses are
gathered in an explicit `Host` record; the commands a function issues to the
host are recorded as a `HostCall` trace; a small operational semantics
`stepCall` models the scene-state effect of each mutating call, so that
frame conditions ("only the destination mesh is touched") can be stated.
Numeric world positions are modelled with integer coordinates: the code only
ever compares coordinates, never computes with them.
-/

/-- A Python string, as a list of characters. -/
abbrev PyStr := List Char

/-- Coerce a Lean string literal to the `PyStr` model. -/
def pys (s : String) : PyStr := s.data

/-- Python `s.split(sep)` for a single-character separator (the only kind
`core.py` uses: `"."`, `"["`, `"]"`). -/
def pySplitChar (sep : Char) : PyStr → List PyStr
  | [] => [[]]
  | c :: rest =>
    if c == sep then [] :: pySplitChar sep rest
    else
      match pySplitChar sep rest with
      | [] => [[c]]
      | h :: t => (c :: h) :: t

/-- `startsWith pat s`: `pat` is a prefix of `s`. -/
def startsWith : PyStr → PyStr → Bool
  | [], _ => true
  | _ :: _, [] => false
  | p :: ps, c :: cs => p == c && startsWith ps cs

/-- Python `pat in s` (substring containment). -/
def hasSub : PyStr → PyStr → Bool
  | [], pat => startsWith pat []
  | c :: r, pat => startsWith pat (c :: r) || hasSub r pat

/-- Fuelled worker for Python `s.replace(pat, rep)`: left-to-right,
non-overlapping occurrences.  The call sites in this repository never pass an
empty `pat` (Python treats that case specially; here it just returns `s`). -/
def pyReplaceAux (pat rep : PyStr) : Nat → PyStr → PyStr
  | 0, s => s
  | fuel + 1, s =>
    match s with
    | [] => []
    | c :: rest =>
      if !pat.isEmpty && startsWith pat (c :: rest) then
        rep ++ pyReplaceAux pat rep fuel ((c :: rest).drop pat.length)
      else c :: pyReplaceAux pat rep fuel rest

/-- Python `s.replace(pat, rep)`. -/
def pyReplace (s pat rep : PyStr) : PyStr := pyReplaceAux pat rep s.length s

/-- Fuelled worker for Python `s.split(pat)` with a string pattern, used only
as the specification-side decomposition for `replace` (all occurrences,
scanned left to right). -/
def pySplitStrAux (pat : PyStr) : Nat → PyStr → List PyStr
  | 0, s => [s]
  | fuel + 1, s =>
    match s with
    | [] => [[]]
    | c :: rest =>
      if !pat.isEmpty && startsWith pat (c :: rest) then
        [] :: pySplitStrAux pat fuel ((c :: rest).drop pat.length)
      else
        match pySplitStrAux pat fuel rest with
        | [] => [[c]]
        | h :: t => (c :: h) :: t

/-- Python `s.split(pat)` for a string pattern. -/
def pySplitStr (s pat : PyStr) : List PyStr := pySplitStrAux pat s.length s

/-- Python `sep.join(parts)`. -/
def pyJoin (sep : PyStr) : List PyStr → PyStr
  | [] => []
  | [x] => x
  | x :: y :: t => x ++ sep ++ pyJoin sep (y :: t)

/-- The decimal digit characters. -/
def digitChar : Nat → Char
  | 0 => '0'
  | 1 => '1'
  | 2 => '2'
  | 3 => '3'
  | 4 => '4'
  | 5 => '5'
  | 6 => '6'
  | 7 => '7'
  | 8 => '8'
  | 9 => '9'
  | _ => '?'

/-- Fuelled decimal printer. -/
def natStrAux : Nat → Nat → PyStr
  | 0, _ => []
  | fuel + 1, n =>
    if n < 10 then [digitChar n]
    else natStrAux fuel (n / 10) ++ [digitChar (n % 10)]

/-- Python `str(n)` for a natural number. -/
def natStr (n : Nat) : PyStr := natStrAux (n + 1) n

/-- Python `int(s)`, restricted to plain digit strings (the only shape that
reaches it in `src_verts`; anything else raises, modelled as `none`). -/
def pyInt (s : PyStr) : Option Nat :=
  if !s.isEmpty && s.all (fun c => c.isDigit) then
    some (s.foldl (fun a c => a * 10 + (c.toNat - 48)) 0)
  else none

/-- An integer-coordinate world position, as returned by
`cmds.xform(..., query=True, translation=True, worldSpace=True)`
(`[0]` is x, `[1]` is y). -/
structure Vec3 where
  x : Int
  y : Int
  z : Int
deriving DecidableEq

/-- One call into the host application's API, in program order. -/
inductive HostCall where
  | fileImport (path : PyStr)
  | nodeTypeQ (node : PyStr)
  | listRelQ (mesh : PyStr)
  | xformQ (name : PyStr)
  | lsSelQ
  | objExistsQ (name : PyStr)
  | duplicate (src newName : PyStr)
  | setAttr (attr : PyStr) (value : Int)
  | makeIdentity (name : PyStr)
  | meshRemap (s1 s2 s3 d1 d2 d3 : PyStr)
  | selectReplace (name : PyStr)
  | polyNormalUnfreeze
  | selectDeselectAll
  | deleteHistory (name : PyStr)
  | fileExportSelected (path ftype : PyStr)
      (force exportSel preserveRefs constructionHistory : Bool) (options : PyStr)
  | isDirQ (path : PyStr)
  | browseDirDialog
deriving DecidableEq

/-- The host application's responses to the queries the tool can make.
Everything the code can observe from the scene is a field here; there is no
other state a core function could read. -/
structure Host where
  importedNodes : PyStr → List PyStr
  nodeType : PyStr → PyStr
  shapes : PyStr → List PyStr
  connectedVerts : PyStr → Nat → List Nat
  worldPos : PyStr → Vec3
  objExists : PyStr → Bool
  selection : List PyStr
  isDir : PyStr → Bool
  browseDir : PyStr

/-- The `for each in nodes: if cmds.nodeType(each) == "transform": ... break`
loop of `import_src_mesh`, with its `nodeType` query trace. -/
def findTransform (h : Host) : List PyStr → List HostCall × PyStr
  | [] => ([], [])
  | nd :: rest =>
    if h.nodeType nd == pys "transform" then ([HostCall.nodeTypeQ nd], nd)
    else
      let r := findTransform h rest
      (HostCall.nodeTypeQ nd :: r.1, r.2)

/-- `core.import_src_mesh` (core.py lines 37-55). -/
def import_src_mesh (h : Host) (file_path : PyStr) : List HostCall × PyStr :=
  let nodes := h.importedNodes file_path
  let r := findTransform h nodes
  (HostCall.fileImport file_path :: r.1, r.2)

/-- The mutable loop state of the vertex scan in `src_verts`
(core.py lines 85-100), with the source's variable names. -/
structure ScanSt where
  up_check : Int
  up_vert : Nat
  side_check_hi : Int
  side_check_lo : Int
  side_vert_src : Nat
  side_vert_dest : Nat
deriving DecidableEq

/-- One iteration of the `for num in range(len(vert_ids))` loop of
`src_verts`: an `if` on the y coordinate, then an `if`/`elif` on x. -/
def scanStep (st : ScanSt) (ip : Nat × Vec3) : ScanSt :=
  let st1 :=
    if ip.2.y > st.up_check then { st with up_check := ip.2.y, up_vert := ip.1 }
    else st
  if ip.2.x > st1.side_check_hi then
    { st1 with side_check_hi := ip.2.x, side_vert_src := ip.1 }
  else if ip.2.x < st1.side_check_lo then
    { st1 with side_check_lo := ip.2.x, side_vert_dest := ip.1 }
  else st1

/-- Maximum of `g` over the pairs, starting from `a`. -/
def foldMax (g : Nat × Vec3 → Int) (a : Int) (l : List (Nat × Vec3)) : Int :=
  l.foldl (fun acc p => max acc (g p)) a

/-- Minimum of `g` over the pairs, starting from `a`. -/
def foldMin (g : Nat × Vec3 → Int) (a : Int) (l : List (Nat × Vec3)) : Int :=
  l.foldl (fun acc p => min acc (g p)) a

/-- Evolution of a (running check value, tracked vertex) pair updated exactly
on strict increase of `g`. -/
def trackMax (g : Nat × Vec3 → Int) : List (Nat × Vec3) → Int × Nat → Int × Nat
  | [], av => av
  | p :: l, av => trackMax g l (if g p > av.1 then (g p, p.1) else av)

/-- Evolution of a (running check value, tracked vertex) pair updated exactly
on strict decrease of `g`. -/
def trackMin (g : Nat × Vec3 → Int) : List (Nat × Vec3) → Int × Nat → Int × Nat
  | [], av => av
  | p :: l, av => trackMin g l (if g p < av.1 then (g p, p.1) else av)

/-- The string `".vtx["`, the left part of `"{}.vtx[{}]".format(...)`. -/
def vtxL : PyStr := ['.', 'v', 't', 'x', '[']

/-- `"{}.vtx[{}]".format(mesh, i)`. -/
def vtxName (mesh : PyStr) (i : Nat) : PyStr := mesh ++ vtxL ++ natStr i ++ [']']

set_option linter.unusedVariables false in
/-- `core.src_verts` (core.py lines 58-105).  Returns the query trace paired
with the result; `none` models the unhandled exceptions (`listRelatives`
yielding nothing, `int()` failing, or indexing `vert_positions[0]` of an
empty list).  The `mirror_axis` parameter is accepted and unused, as in the
source. -/
def src_verts (h : Host) (central_vert : PyStr) (mirror_axis : PyStr) :
    List HostCall × Option (List (List Nat)) :=
  let mesh := (pySplitChar '.' central_vert).headD []
  let tr0 := [HostCall.listRelQ mesh]
  match (h.shapes mesh).head? with
  | none => (tr0, none)
  | some shape =>
    let vs1 := (pySplitChar '.' central_vert).getLastD []
    let vs2 := (pySplitChar '[' vs1).getLastD []
    let vs3 := (pySplitChar ']' vs2).headD []
    match pyInt vs3 with
    | none => (tr0, none)
    | some vert_num =>
      let vert_ids := h.connectedVerts shape vert_num
      let queries :=
        vert_ids.map (fun each => pyReplace central_vert (natStr vert_num) (natStr each))
      let tr := tr0 ++ queries.map HostCall.xformQ
      let vert_positions := queries.map h.worldPos
      match vert_ids, vert_positions with
      | id0 :: _, p0 :: _ =>
        let st0 : ScanSt := ⟨p0.y, id0, p0.x, p0.x, 0, 0⟩
        let fin := (vert_ids.zip vert_positions).foldl scanStep st0
        (tr, some [[vert_num, fin.up_vert, fin.side_vert_src],
                   [vert_num, fin.up_vert, fin.side_vert_dest]])
      | _, _ => (tr, none)

/-- `core.transfer_vert_order` (core.py lines 108-123).  `none` models the
index errors raised before any host call when `vertex_ids` does not hold two
lists of at least three vertex numbers. -/
def transfer_vert_order (src_mesh dest_mesh : PyStr) (vertex_ids : List (List Nat)) :
    List HostCall × Option Unit :=
  match vertex_ids[0]?, vertex_ids[1]? with
  | some a, some b =>
    let sv := a.map (vtxName src_mesh)
    let dv := b.map (vtxName dest_mesh)
    match sv[0]?, sv[1]?, sv[2]?, dv[0]?, dv[1]?, dv[2]? with
    | some s1, some s2, some s3, some d1, some d2, some d3 =>
      ([HostCall.meshRemap s1 s2 s3 d1 d2 d3,
        HostCall.selectReplace dest_mesh,
        HostCall.polyNormalUnfreeze,
        HostCall.selectDeselectAll,
        HostCall.deleteHistory dest_mesh], some ())
    | _, _, _, _, _, _ => ([], none)
  | _, _ => ([], none)

/-- `core.create_mirrored_mesh` (core.py lines 126-146): rename, duplicate,
set the scale attribute of the given axis to -1, freeze the scale. -/
def create_mirrored_mesh (mesh : PyStr) (mirror_axis : PyStr) :
    PyStr × List HostCall :=
  let new_name :=
    if hasSub mesh (pys "_l_") then pyReplace mesh (pys "_l_") (pys "_r_")
    else pyReplace mesh (pys "_r_") (pys "_l_")
  (new_name,
   [HostCall.duplicate mesh new_name,
    HostCall.setAttr (new_name ++ pys ".s" ++ mirror_axis) (-1),
    HostCall.makeIdentity new_name])

/-- The OBJ options string passed by `export_dest_mesh`. -/
def objOptions : PyStr := pys "groups=1;ptgroups=1;materials=0;smoothing=1;normals=1;"

/-- `core.export_dest_mesh` (core.py lines 149-160); the `print` to stdout is
not a host call and is not modelled. -/
def export_dest_mesh (mesh file_path : PyStr) : List HostCall :=
  [HostCall.selectReplace mesh,
   HostCall.fileExportSelected file_path (pys "OBJexport") true true true false objOptions,
   HostCall.selectDeselectAll]

/-- Per-mesh scene state: whether construction history is present, whether
vertex normals are frozen, and an abstract geometry version counter. -/
structure MeshSt where
  hasHistory : Bool
  normalsFrozen : Bool
  geom : Nat
deriving DecidableEq

/-- Scene state: the active selection and the state of every mesh. -/
structure SceneSt where
  selection : List PyStr
  meshes : PyStr → MeshSt

/-- Update one mesh's record in a mesh map. -/
def updMesh (f : PyStr → MeshSt) (name : PyStr) (g : MeshSt → MeshSt) :
    PyStr → MeshSt :=
  fun m => if m == name then g (f m) else f m

/-- The node a `"node.attr"` attribute path refers to. -/
def attrNode (attr : PyStr) : PyStr := (pySplitChar '.' attr).headD []

/-- Bump the abstract geometry version of a mesh record. -/
def bumpGeom (m : MeshSt) : MeshSt := { m with geom := m.geom + 1 }

/-- Geometry change that also leaves construction history behind. -/
def bumpGeomHist (m : MeshSt) : MeshSt :=
  { m with geom := m.geom + 1, hasHistory := true }

/-- Thaw the vertex normals of a mesh record (leaves history behind). -/
def thawNormals (m : MeshSt) : MeshSt :=
  { m with normalsFrozen := false, hasHistory := true }

/-- Drop the construction history of a mesh record. -/
def dropHistory (m : MeshSt) : MeshSt := { m with hasHistory := false }

/-- Scene-state effect of one host call.  Query calls leave the scene
unchanged; `polyNormalPerVertex` acts on the current selection. -/
def stepCall (s : SceneSt) : HostCall → SceneSt
  | .duplicate src newName =>
      { s with meshes := updMesh s.meshes newName (fun _ => s.meshes src) }
  | .setAttr attr _ =>
      { s with meshes := updMesh s.meshes (attrNode attr) bumpGeom }
  | .makeIdentity name =>
      { s with meshes := updMesh s.meshes name bumpGeom }
  | .meshRemap _ _ _ d1 _ _ =>
      { s with meshes := updMesh s.meshes (attrNode d1) bumpGeomHist }
  | .selectReplace name => { s with selection := [name] }
  | .polyNormalUnfreeze =>
      { s with meshes := fun m =>
          if s.selection.contains m then thawNormals (s.meshes m) else s.meshes m }
  | .selectDeselectAll => { s with selection := [] }
  | .deleteHistory name =>
      { s with meshes := updMesh s.meshes name dropHistory }
  | _ => s

/-- Run a call trace against a scene state. -/
def runCalls (s : SceneSt) (l : List HostCall) : SceneSt := l.foldl stepCall s

/-- The two `LOG.error` messages `MirrorBlendShapeTool.build` can emit. -/
inductive LogMsg where
  | noVertexGiven
  | vertexNotInScene
deriving DecidableEq

/-- Unhandled Python exceptions observable from `build`. -/
inductive PyErr where
  | indexError
  | unboundLocal
  | runtimeError
deriving DecidableEq

/-- Observable outcome of one `build` invocation: the errors logged, the host
calls issued, and the exception that escaped, if any. -/
structure BuildOut where
  logs : List LogMsg
  calls : List HostCall
  exn : Option PyErr
deriving DecidableEq

/-- The widget state `build` can observe (view.py): the vertex textfield, the
checked mirror-axis radio button, the export checkbox, and the export
directory textfield. -/
structure UIState where
  vert_textfield : PyStr
  mirror_axis_checked : PyStr
  export_checked : Bool
  export_dir : PyStr

/-- The tail of `build` after a central vertex and mesh are bound (view.py
lines 240-260): duplicate and flip (axis left at its `"x"` default), collect
vertices, transfer the vertex order, then optionally export. -/
def buildGo (h : Host) (logs0 : List LogMsg) (calls0 : List HostCall)
    (central_vert mesh : PyStr) (export_checked : Bool) (export_dir : PyStr) :
    BuildOut :=
  let cm := create_mirrored_mesh mesh (pys "x")
  let new_mesh := cm.1
  let sv := src_verts h central_vert (pys "x")
  match sv.2 with
  | none => { logs := logs0, calls := calls0 ++ cm.2 ++ sv.1, exn := some .runtimeError }
  | some needed_verts =>
    let tv := transfer_vert_order mesh new_mesh needed_verts
    match tv.2 with
    | none =>
        { logs := logs0, calls := calls0 ++ cm.2 ++ sv.1 ++ tv.1,
          exn := some .runtimeError }
    | some _ =>
      if export_checked then
        if h.isDir export_dir then
          { logs := logs0,
            calls := calls0 ++ cm.2 ++ sv.1 ++ tv.1 ++ [HostCall.isDirQ export_dir] ++
              export_dest_mesh new_mesh (export_dir ++ pys "/" ++ new_mesh),
            exn := none }
        else
          { logs := logs0,
            calls := calls0 ++ cm.2 ++ sv.1 ++ tv.1 ++
              [HostCall.isDirQ export_dir, HostCall.browseDirDialog] ++
              export_dest_mesh new_mesh (h.browseDir ++ pys "/" ++ new_mesh),
            exn := none }
      else { logs := logs0, calls := calls0 ++ cm.2 ++ sv.1 ++ tv.1, exn := none }

/-- `MirrorBlendShapeTool.build` (view.py lines 222-260) as a function of the
widget fields it actually reads.  The prologue mirrors the source exactly:
with an empty textfield, `cmds.ls(selection=True, flatten=True)[0]` raises
`IndexError` on an empty selection before the logging branch is reached; after
either `LOG.error` the function falls through to `create_mirrored_mesh` and
dies on the unbound local `mesh`. -/
def buildCore (h : Host) (tf : PyStr) (export_checked : Bool) (export_dir : PyStr) :
    BuildOut :=
  if tf.isEmpty then
    match h.selection with
    | [] => { logs := [], calls := [HostCall.lsSelQ], exn := some .indexError }
    | first :: _ =>
      if !first.isEmpty then
        buildGo h [] [HostCall.lsSelQ, HostCall.lsSelQ] first
          ((pySplitChar '.' first).headD []) export_checked export_dir
      else
        { logs := [.noVertexGiven], calls := [HostCall.lsSelQ], exn := some .unboundLocal }
  else if !h.objExists tf then
    { logs := [.vertexNotInScene], calls := [HostCall.objExistsQ tf],
      exn := some .unboundLocal }
  else
    buildGo h [] [HostCall.objExistsQ tf] tf ((pySplitChar '.' tf).headD [])
      export_checked export_dir

/-- `build`, reading its widgets: the mirror-axis radio state is a field of
`UIState` but is never consulted (the source never passes `mirror_axis`). -/
def build (h : Host) (ui : UIState) : BuildOut :=
  buildCore h ui.vert_textfield ui.export_checked ui.export_dir

/-! ### Concrete hosts and widget states used in closed evaluations -/

/-- A trivial host: empty scene, every query answered with the empty value. -/
def host0 : Host :=
  { importedNodes := fun _ => []
    nodeType := fun _ => []
    shapes := fun _ => []
    connectedVerts := fun _ _ => []
    worldPos := fun _ => ⟨0, 0, 0⟩
    objExists := fun _ => false
    selection := []
    isDir := fun _ => false
    browseDir := [] }

/-- Scene of the C2 counterexample: mesh `m1` (its name contains the digit of
the central vertex number), vertex 1 connected to vertex 2 only. -/
def hostC2 : Host :=
  { host0 with
    shapes := fun m => if m = pys "m1" then [pys "m1Shape"] else []
    connectedVerts := fun sh k => if sh = pys "m1Shape" ∧ k = 1 then [2] else [] }

/-- Scene of the C2 witness: mesh `m`, vertex 1 connected to vertices 2 and 3,
with distinct world positions. -/
def hostC2w : Host :=
  { host0 with
    shapes := fun m => if m = pys "m" then [pys "mShape"] else []
    connectedVerts := fun sh k => if sh = pys "mShape" ∧ k = 1 then [2, 3] else []
    worldPos := fun q =>
      if q = pys "m.vtx[2]" then ⟨1, 5, 0⟩
      else if q = pys "m.vtx[3]" then ⟨4, 1, 0⟩ else ⟨0, 0, 0⟩ }

/-- Scene for a successful `build` run from the textfield path: the object
`m.vtx[0]` exists, mesh `m` has one shape, vertex 0 is connected to vertex 1. -/
def hostBuildW : Host :=
  { host0 with
    objExists := fun s => s == pys "m.vtx[0]"
    shapes := fun m => if m = pys "m" then [pys "mShape"] else []
    connectedVerts := fun sh k => if sh = pys "mShape" ∧ k = 0 then [1] else [] }

/-- `hostBuildW` with a different scene selection and nothing else changed. -/
def hostSelB : Host := { hostBuildW with selection := [pys "sel"] }

/-- A concrete scene state with a non-trivial selection and every mesh carrying
history and frozen normals. -/
def scene0 : SceneSt := ⟨[pys "sel"], fun _ => ⟨true, true, 0⟩⟩



/-! ### Lemmas about the Python string operations -/

theorem pySplitChar_ne_nil (sep : Char) : ∀ s : PyStr, pySplitChar sep s ≠ [] := by
  intro s
  induction s with
  | nil => simp [pySplitChar]
  | cons c r ih =>
    simp only [pySplitChar]
    split
    · simp
    · cases h : pySplitChar sep r with
      | nil => simp
      | cons a t => simp

theorem pySplitChar_no_sep {sep : Char} : ∀ {s : PyStr}, sep ∉ s → pySplitChar sep s = [s] := by
  intro s
  induction s with
  | nil => intro _; rfl
  | cons c r ih =>
    intro h
    have hc : (c == sep) = false := by
      simp only [beq_eq_false_iff_ne, ne_eq]
      rintro rfl
      exact h (List.mem_cons_self _ _)
    have hr : sep ∉ r := fun hm => h (List.mem_cons_of_mem _ hm)
    simp only [pySplitChar, hc, Bool.false_eq_true, if_false, ih hr]

theorem pySplitChar_append {sep : Char} (B : PyStr) :
    ∀ {A : PyStr}, sep ∉ A → pySplitChar sep (A ++ sep :: B) = A :: pySplitChar sep B := by
  intro A
  induction A with
  | nil => intro _; simp [pySplitChar]
  | cons c A' ih =>
    intro h
    have hc : (c == sep) = false := by
      simp only [beq_eq_false_iff_ne, ne_eq]
      rintro rfl
      exact h (List.mem_cons_self _ _)
    have hA' : sep ∉ A' := fun hm => h (List.mem_cons_of_mem _ hm)
    simp only [List.cons_append, pySplitChar, hc, Bool.false_eq_true, if_false]
    rw [show A'.append (sep :: B) = A' ++ sep :: B from rfl, ih hA']

theorem startsWith_append (p t : PyStr) : startsWith p (p ++ t) = true := by
  induction p with
  | nil => rfl
  | cons c p' ih => simp [startsWith, ih]

theorem startsWith_iff : ∀ {p s : PyStr}, startsWith p s = true ↔ ∃ t, s = p ++ t := by
  intro p
  induction p with
  | nil => intro s; simp [startsWith]
  | cons c p' ih =>
    intro s
    cases s with
    | nil => simp [startsWith]
    | cons d s' =>
      simp only [startsWith, Bool.and_eq_true, beq_iff_eq, ih, List.cons_append,
        List.cons.injEq]
      constructor
      · rintro ⟨rfl, t, rfl⟩; exact ⟨t, rfl, rfl⟩
      · rintro ⟨t, rfl, rfl⟩; exact ⟨rfl, t, rfl⟩

theorem hasSub_of_startsWith {s pat : PyStr} (h : startsWith pat s = true) :
    hasSub s pat = true := by
  cases s with
  | nil => simpa [hasSub] using h
  | cons c r => simp [hasSub, h]

theorem hasSub_cons_false {c : Char} {r pat : PyStr} (h : hasSub (c :: r) pat = false) :
    startsWith pat (c :: r) = false ∧ hasSub r pat = false := by
  simpa [hasSub] using h

theorem pyReplaceAux_nil (pat rep : PyStr) (f : Nat) : pyReplaceAux pat rep f [] = [] := by
  cases f <;> rfl

theorem pyReplaceAux_fuel (pat rep : PyStr) :
    ∀ f1 : Nat, ∀ {f2 : Nat} {s : PyStr}, s.length ≤ f1 → s.length ≤ f2 →
      pyReplaceAux pat rep f1 s = pyReplaceAux pat rep f2 s := by
  intro f1
  induction f1 with
  | zero =>
    intro f2 s h1 _
    have hs : s = [] := List.length_eq_zero.mp (Nat.le_zero.mp h1)
    subst hs
    rw [pyReplaceAux_nil, pyReplaceAux_nil]
  | succ f ih =>
    intro f2 s h1 h2
    cases s with
    | nil => rw [pyReplaceAux_nil, pyReplaceAux_nil]
    | cons c rest =>
      cases f2 with
      | zero => simp at h2
      | succ g =>
        simp only [pyReplaceAux]
        split
        · rename_i hcond
          have hpat : pat.length ≠ 0 := by
            intro h0
            have hnil : pat = [] := List.length_eq_zero.mp h0
            subst hnil
            simp at hcond
          have hlen : ((c :: rest).drop pat.length).length ≤ f := by
            simp only [List.length_drop, List.length_cons]
            simp only [List.length_cons] at h1
            omega
          have hlen2 : ((c :: rest).drop pat.length).length ≤ g := by
            simp only [List.length_drop, List.length_cons]
            simp only [List.length_cons] at h2
            omega
          rw [ih hlen hlen2]
        · have hlen : rest.length ≤ f := by simp only [List.length_cons] at h1; omega
          have hlen2 : rest.length ≤ g := by simp only [List.length_cons] at h2; omega
          rw [ih hlen hlen2]

theorem pyReplace_nil (pat rep : PyStr) : pyReplace [] pat rep = [] := rfl

theorem pyReplace_cons_no_match {pat : PyStr} {c : Char} {rest : PyStr}
    (h : startsWith pat (c :: rest) = false) (rep : PyStr) :
    pyReplace (c :: rest) pat rep = c :: pyReplace rest pat rep := by
  simp only [pyReplace, List.length_cons, pyReplaceAux, h, Bool.and_false,
    Bool.false_eq_true, if_false]

theorem pyReplace_match {pat s : PyStr} (hp : pat ≠ []) (hm : startsWith pat s = true)
    (rep : PyStr) :
    pyReplace s pat rep = rep ++ pyReplace (s.drop pat.length) pat rep := by
  cases s with
  | nil =>
    cases pat with
    | nil => exact absurd rfl hp
    | cons p ps => simp [startsWith] at hm
  | cons c rest =>
    have hcond : (!pat.isEmpty && startsWith pat (c :: rest)) = true := by
      simp [hm, List.isEmpty_iff, hp]
    have hlp : 1 ≤ pat.length := by
      cases pat with
      | nil => exact absurd rfl hp
      | cons _ _ => simp
    simp only [pyReplace, List.length_cons, pyReplaceAux, hcond, if_true]
    congr 1
    apply pyReplaceAux_fuel
    · simp only [List.length_drop, List.length_cons]; omega
    · exact le_refl _

theorem pyReplace_id_of_no_sub {pat : PyStr} (rep : PyStr) :
    ∀ {s : PyStr}, hasSub s pat = false → pyReplace s pat rep = s := by
  intro s
  induction s with
  | nil => intro _; rfl
  | cons c r ih =>
    intro h
    obtain ⟨h1, h2⟩ := hasSub_cons_false h
    rw [pyReplace_cons_no_match h1, ih h2]

/-! ### Decimal strings -/

theorem digitChar_isDigit {n : Nat} (h : n < 10) : (digitChar n).isDigit = true := by
  interval_cases n <;> decide

theorem digitChar_toNat {n : Nat} (h : n < 10) : (digitChar n).toNat - 48 = n := by
  interval_cases n <;> decide

theorem natStrAux_spec :
    ∀ f n : Nat, n < f →
      natStrAux f n ≠ [] ∧ (∀ c ∈ natStrAux f n, c.isDigit = true) ∧
        (natStrAux f n).foldl (fun a c => a * 10 + (c.toNat - 48)) 0 = n := by
  intro f
  induction f with
  | zero => intro n hn; omega
  | succ f ih =>
    intro n hn
    by_cases h10 : n < 10
    · refine ⟨by simp [natStrAux, h10], ?_, ?_⟩
      · intro c hc
        simp only [natStrAux, h10, if_true, List.mem_singleton] at hc
        subst hc
        exact digitChar_isDigit h10
      · simp [natStrAux, h10, digitChar_toNat h10]
    · have hrec := ih (n / 10) (by omega)
      simp only [natStrAux, h10, if_false]
      refine ⟨by simp, ?_, ?_⟩
      · intro c hc
        rcases List.mem_append.mp hc with h | h
        · exact hrec.2.1 c h
        · rw [List.mem_singleton] at h
          subst h
          exact digitChar_isDigit (Nat.mod_lt _ (by norm_num))
      · rw [List.foldl_append, hrec.2.2]
        simp only [List.foldl_cons, List.foldl_nil]
        rw [digitChar_toNat (Nat.mod_lt _ (by norm_num))]
        omega

theorem natStr_ne_nil (n : Nat) : natStr n ≠ [] :=
  (natStrAux_spec (n + 1) n (by omega)).1

theorem natStr_digits (n : Nat) : ∀ c ∈ natStr n, c.isDigit = true :=
  (natStrAux_spec (n + 1) n (by omega)).2.1

theorem pyInt_natStr (n : Nat) : pyInt (natStr n) = some n := by
  have h := natStrAux_spec (n + 1) n (by omega)
  have hcond : (!(natStr n).isEmpty && (natStr n).all (fun c => c.isDigit)) = true := by
    rw [Bool.and_eq_true]
    constructor
    · rw [Bool.not_eq_true']
      rw [List.isEmpty_eq_false_iff_exists_mem]
      cases hs : natStr n with
      | nil => exact absurd hs (natStr_ne_nil n)
      | cons c r => exact ⟨c, by simp⟩
    · rw [List.all_eq_true]
      exact fun c hc => natStr_digits n c hc
  simp only [pyInt, hcond, if_true]
  exact congrArg some h.2.2

/-! ### `replace` across a clash-free mesh name -/

theorem beq_false_of_digit_nondigit {c d : Char} (hc : c.isDigit = true)
    (hd : d.isDigit = false) : (c == d) = false := by
  rw [beq_eq_false_iff_ne]
  rintro rfl
  rw [hc] at hd
  simp at hd

theorem startsWith_false_of_nondigit {pat : PyStr} {d : Char} (s : PyStr)
    (hdig : ∀ c ∈ pat, c.isDigit = true) (hp : pat ≠ []) (hd : d.isDigit = false) :
    startsWith pat (d :: s) = false := by
  cases pat with
  | nil => exact absurd rfl hp
  | cons p ps =>
    have hpd : (p == d) = false :=
      beq_false_of_digit_nondigit (hdig p (List.mem_cons_self _ _)) hd
    simp [startsWith, hpd]

theorem startsWith_false_boundary {pat Mp T : PyStr} {d : Char}
    (_hp : pat ≠ []) (hdig : ∀ c ∈ pat, c.isDigit = true)
    (hM : hasSub Mp pat = false) (hd : d.isDigit = false) :
    startsWith pat (Mp ++ d :: T) = false := by
  cases hsw : startsWith pat (Mp ++ d :: T) with
  | false => rfl
  | true =>
    exfalso
    obtain ⟨t, ht⟩ := startsWith_iff.mp hsw
    by_cases hlen : pat.length ≤ Mp.length
    · have htake : Mp.take pat.length = pat := by
        have h1 := congrArg (List.take pat.length) ht
        rw [List.take_append_of_le_length hlen] at h1
        rw [List.take_left] at h1
        exact h1
      have hMp : Mp = pat ++ Mp.drop pat.length := by
        have h2 : Mp = Mp.take pat.length ++ Mp.drop pat.length :=
          (List.take_append_drop _ _).symm
        rw [htake] at h2
        exact h2
      have hswM : startsWith pat Mp = true :=
        startsWith_iff.mpr ⟨Mp.drop pat.length, hMp⟩
      have := hasSub_of_startsWith hswM
      rw [hM] at this
      exact Bool.false_ne_true this
    · push_neg at hlen
      have hdmem : d ∈ pat := by
        have h1 : (Mp ++ d :: T)[Mp.length]? = some d := by
          rw [List.getElem?_append_right (le_refl _)]
          simp
        rw [ht, List.getElem?_append, if_pos hlen] at h1
        exact List.getElem?_mem h1
      have := hdig d hdmem
      rw [hd] at this
      exact Bool.false_ne_true this

theorem pyReplace_cons_nondigit {pat : PyStr} {d : Char} (s rep : PyStr)
    (hdig : ∀ c ∈ pat, c.isDigit = true) (hp : pat ≠ []) (hd : d.isDigit = false) :
    pyReplace (d :: s) pat rep = d :: pyReplace s pat rep :=
  pyReplace_cons_no_match (startsWith_false_of_nondigit s hdig hp hd) rep

theorem pyReplace_append_clash {pat rep T : PyStr} {d : Char}
    (hp : pat ≠ []) (hdig : ∀ c ∈ pat, c.isDigit = true) (hd : d.isDigit = false) :
    ∀ {Mp : PyStr}, hasSub Mp pat = false →
      pyReplace (Mp ++ d :: T) pat rep = Mp ++ pyReplace (d :: T) pat rep := by
  intro Mp
  induction Mp with
  | nil => intro _; simp
  | cons c M' ih =>
    intro hM
    have h1 : startsWith pat ((c :: M') ++ d :: T) = false :=
      startsWith_false_boundary hp hdig hM hd
    rw [List.cons_append] at h1 ⊢
    rw [pyReplace_cons_no_match h1, ih (hasSub_cons_false hM).2]
    rfl

/-- Replacing `str(n)` by `str(k)` inside `"M.vtx[n]"` yields `"M.vtx[k]"`
provided `str(n)` does not occur in `M` itself. -/
theorem pyReplace_vtxName (M : PyStr) (n k : Nat) (hclash : hasSub M (natStr n) = false) :
    pyReplace (vtxName M n) (natStr n) (natStr k) = vtxName M k := by
  have hp := natStr_ne_nil n
  have hdig := natStr_digits n
  have hshape : vtxName M n = M ++ '.' :: ('v' :: 't' :: 'x' :: '[' :: (natStr n ++ [']'])) := by
    simp [vtxName, vtxL]
  rw [hshape, pyReplace_append_clash hp hdig (by decide) hclash]
  rw [pyReplace_cons_nondigit _ _ hdig hp (by decide)]
  rw [pyReplace_cons_nondigit _ _ hdig hp (by decide)]
  rw [pyReplace_cons_nondigit _ _ hdig hp (by decide)]
  rw [pyReplace_cons_nondigit _ _ hdig hp (by decide)]
  rw [pyReplace_cons_nondigit _ _ hdig hp (by decide)]
  rw [pyReplace_match hp (startsWith_append _ [']']) (natStr k)]
  rw [List.drop_left]
  rw [pyReplace_cons_nondigit _ _ hdig hp (by decide), pyReplace_nil]
  simp [vtxName, vtxL]

/-! ### `replace` as split-and-join (all occurrences) -/

theorem pySplitStrAux_ne_nil (pat : PyStr) : ∀ (f : Nat) (s : PyStr), pySplitStrAux pat f s ≠ [] := by
  intro f
  induction f with
  | zero => intro s; simp [pySplitStrAux]
  | succ f ih =>
    intro s
    cases s with
    | nil => simp [pySplitStrAux]
    | cons c rest =>
      simp only [pySplitStrAux]
      split
      · simp
      · cases h : pySplitStrAux pat f rest with
        | nil => simp
        | cons a t => simp

theorem pyReplaceAux_eq_join (pat rep : PyStr) :
    ∀ (f : Nat) (s : PyStr), pyReplaceAux pat rep f s = pyJoin rep (pySplitStrAux pat f s) := by
  intro f
  induction f with
  | zero => intro s; rfl
  | succ f ih =>
    intro s
    cases s with
    | nil => rfl
    | cons c rest =>
      simp only [pyReplaceAux, pySplitStrAux]
      split
      · rw [ih]
        cases h : pySplitStrAux pat f ((c :: rest).drop pat.length) with
        | nil => exact absurd h (pySplitStrAux_ne_nil pat f _)
        | cons a t => simp [pyJoin]
      · rw [ih]
        cases h : pySplitStrAux pat f rest with
        | nil => exact absurd h (pySplitStrAux_ne_nil pat f _)
        | cons a t =>
          cases t with
          | nil => simp [pyJoin]
          | cons b t' => simp [pyJoin]

/-- Python's `s.replace(pat, rep)` equals splitting on every occurrence of
`pat` and joining with `rep`. -/
theorem pyReplace_eq_join (s pat rep : PyStr) :
    pyReplace s pat rep = pyJoin rep (pySplitStr s pat) :=
  pyReplaceAux_eq_join pat rep s.length s

/-! ### The vertex scan loop -/

theorem ite_eq_max (a b : Int) : (if b > a then b else a) = max a b := by
  split
  · exact (max_eq_right (le_of_lt (by assumption))).symm
  · exact (max_eq_left (not_lt.mp (by assumption))).symm

theorem ite_eq_min (a b : Int) : (if b < a then b else a) = min a b := by
  split
  · exact (min_eq_right (le_of_lt (by assumption))).symm
  · exact (min_eq_left (not_lt.mp (by assumption))).symm

theorem foldMax_ge_init (g : Nat × Vec3 → Int) :
    ∀ (l : List (Nat × Vec3)) (a : Int), a ≤ foldMax g a l := by
  intro l
  induction l with
  | nil => intro a; exact le_refl a
  | cons p l ih =>
    intro a
    exact le_trans (le_max_left a (g p)) (ih (max a (g p)))

theorem foldMax_ge_mem (g : Nat × Vec3 → Int) :
    ∀ (l : List (Nat × Vec3)) (a : Int), ∀ p ∈ l, g p ≤ foldMax g a l := by
  intro l
  induction l with
  | nil => intro a p hp; simp at hp
  | cons q l ih =>
    intro a p hp
    rcases List.mem_cons.mp hp with h | h
    · subst h
      exact le_trans (le_max_right a (g p)) (foldMax_ge_init g l (max a (g p)))
    · exact ih (max a (g q)) p h

theorem foldMin_le_init (g : Nat × Vec3 → Int) :
    ∀ (l : List (Nat × Vec3)) (a : Int), foldMin g a l ≤ a := by
  intro l
  induction l with
  | nil => intro a; exact le_refl a
  | cons p l ih =>
    intro a
    exact le_trans (ih (min a (g p))) (min_le_left a (g p))

theorem foldMin_le_mem (g : Nat × Vec3 → Int) :
    ∀ (l : List (Nat × Vec3)) (a : Int), ∀ p ∈ l, foldMin g a l ≤ g p := by
  intro l
  induction l with
  | nil => intro a p hp; simp at hp
  | cons q l ih =>
    intro a p hp
    rcases List.mem_cons.mp hp with h | h
    · subst h
      exact le_trans (foldMin_le_init g l (min a (g p))) (min_le_right a (g p))
    · exact ih (min a (g q)) p h

theorem trackMax_spec (g : Nat × Vec3 → Int) :
    ∀ (l : List (Nat × Vec3)) (a : Int) (v : Nat),
      (foldMax g a l > a →
        ∃ q, l.find? (fun p => g p == foldMax g a l) = some q ∧
          (trackMax g l (a, v)).2 = q.1) ∧
      (¬ foldMax g a l > a → (trackMax g l (a, v)).2 = v) := by
  intro l
  induction l with
  | nil =>
    intro a v
    exact ⟨fun h => absurd h (lt_irrefl a), fun _ => rfl⟩
  | cons p l ih =>
    intro a v
    have hM : foldMax g a (p :: l) = foldMax g (max a (g p)) l := rfl
    by_cases hba : g p > a
    · have hmax : max a (g p) = g p := max_eq_right (le_of_lt hba)
      have htr : trackMax g (p :: l) (a, v) = trackMax g l (g p, p.1) := by
        simp [trackMax, hba]
      constructor
      · intro _
        by_cases heq : g p = foldMax g a (p :: l)
        · refine ⟨p, ?_, ?_⟩
          · rw [List.find?_cons_of_pos]
            simp [heq]
          · rw [htr]
            have hnot : ¬ foldMax g (g p) l > g p := by
              rw [hM, hmax] at heq
              omega
            exact (ih (g p) p.1).2 hnot
        · have hge : g p ≤ foldMax g a (p :: l) := by
            rw [hM, hmax]
            exact foldMax_ge_init g l (g p)
          have hgt : foldMax g a (p :: l) > g p := lt_of_le_of_ne hge heq
          rw [hM, hmax] at hgt
          obtain ⟨q, hq1, hq2⟩ := (ih (g p) p.1).1 hgt
          refine ⟨q, ?_, ?_⟩
          · rw [List.find?_cons_of_neg]
            · rw [hM, hmax]
              exact hq1
            · simp only [beq_iff_eq]
              rw [hM, hmax]
              omega
          · rw [htr]
            exact hq2
      · intro hnot
        exfalso
        have : g p ≤ foldMax g a (p :: l) := by
          rw [hM, hmax]
          exact foldMax_ge_init g l (g p)
        omega
    · have hmax : max a (g p) = a := max_eq_left (not_lt.mp hba)
      have htr : trackMax g (p :: l) (a, v) = trackMax g l (a, v) := by
        simp [trackMax, hba]
      constructor
      · intro hgt
        rw [hM, hmax] at hgt
        obtain ⟨q, hq1, hq2⟩ := (ih a v).1 hgt
        refine ⟨q, ?_, ?_⟩
        · rw [List.find?_cons_of_neg]
          · rw [hM, hmax]
            exact hq1
          · simp only [beq_iff_eq]
            rw [hM, hmax]
            have hle : g p ≤ a := not_lt.mp hba
            omega
        · rw [htr]
          exact hq2
      · intro hnot
        rw [hM, hmax] at hnot
        rw [htr]
        exact (ih a v).2 hnot

theorem trackMin_spec (g : Nat × Vec3 → Int) :
    ∀ (l : List (Nat × Vec3)) (a : Int) (v : Nat),
      (foldMin g a l < a →
        ∃ q, l.find? (fun p => g p == foldMin g a l) = some q ∧
          (trackMin g l (a, v)).2 = q.1) ∧
      (¬ foldMin g a l < a → (trackMin g l (a, v)).2 = v) := by
  intro l
  induction l with
  | nil =>
    intro a v
    exact ⟨fun h => absurd h (lt_irrefl a), fun _ => rfl⟩
  | cons p l ih =>
    intro a v
    have hM : foldMin g a (p :: l) = foldMin g (min a (g p)) l := rfl
    by_cases hba : g p < a
    · have hmin : min a (g p) = g p := min_eq_right (le_of_lt hba)
      have htr : trackMin g (p :: l) (a, v) = trackMin g l (g p, p.1) := by
        simp [trackMin, hba]
      constructor
      · intro _
        by_cases heq : g p = foldMin g a (p :: l)
        · refine ⟨p, ?_, ?_⟩
          · rw [List.find?_cons_of_pos]
            simp [heq]
          · rw [htr]
            have hnot : ¬ foldMin g (g p) l < g p := by
              rw [hM, hmin] at heq
              omega
            exact (ih (g p) p.1).2 hnot
        · have hge : foldMin g a (p :: l) ≤ g p := by
            rw [hM, hmin]
            exact foldMin_le_init g l (g p)
          have hgt : foldMin g a (p :: l) < g p := lt_of_le_of_ne hge (fun h => heq h.symm)
          rw [hM, hmin] at hgt
          obtain ⟨q, hq1, hq2⟩ := (ih (g p) p.1).1 hgt
          refine ⟨q, ?_, ?_⟩
          · rw [List.find?_cons_of_neg]
            · rw [hM, hmin]
              exact hq1
            · simp only [beq_iff_eq]
              rw [hM, hmin]
              omega
          · rw [htr]
            exact hq2
      · intro hnot
        exfalso
        have : foldMin g a (p :: l) ≤ g p := by
          rw [hM, hmin]
          exact foldMin_le_init g l (g p)
        omega
    · have hmin : min a (g p) = a := min_eq_left (not_lt.mp hba)
      have htr : trackMin g (p :: l) (a, v) = trackMin g l (a, v) := by
        simp [trackMin, hba]
      constructor
      · intro hgt
        rw [hM, hmin] at hgt
        obtain ⟨q, hq1, hq2⟩ := (ih a v).1 hgt
        refine ⟨q, ?_, ?_⟩
        · rw [List.find?_cons_of_neg]
          · rw [hM, hmin]
            exact hq1
          · simp only [beq_iff_eq]
            rw [hM, hmin]
            have hle : a ≤ g p := not_lt.mp hba
            omega
        · rw [htr]
          exact hq2
      · intro hnot
        rw [hM, hmin] at hnot
        rw [htr]
        exact (ih a v).2 hnot

theorem scanStep_up (st : ScanSt) (p : Nat × Vec3) :
    ((scanStep st p).up_check, (scanStep st p).up_vert) =
      (if p.2.y > st.up_check then (p.2.y, p.1) else (st.up_check, st.up_vert)) := by
  simp only [scanStep]
  split_ifs <;> rfl

theorem scanStep_hi (st : ScanSt) (p : Nat × Vec3) :
    ((scanStep st p).side_check_hi, (scanStep st p).side_vert_src) =
      (if p.2.x > st.side_check_hi then (p.2.x, p.1)
       else (st.side_check_hi, st.side_vert_src)) := by
  simp only [scanStep]
  split_ifs <;> rfl

theorem scanStep_lo (st : ScanSt) (p : Nat × Vec3)
    (hinv : st.side_check_lo ≤ st.side_check_hi) :
    ((scanStep st p).side_check_lo, (scanStep st p).side_vert_dest) =
      (if p.2.x < st.side_check_lo then (p.2.x, p.1)
       else (st.side_check_lo, st.side_vert_dest)) := by
  simp only [scanStep]
  split_ifs <;> first | rfl | (dsimp only at *; omega)

theorem scanStep_inv (st : ScanSt) (p : Nat × Vec3)
    (hinv : st.side_check_lo ≤ st.side_check_hi) :
    (scanStep st p).side_check_lo ≤ (scanStep st p).side_check_hi := by
  simp only [scanStep]
  split_ifs <;> (try dsimp only at *) <;> omega

theorem scan_fold_up (l : List (Nat × Vec3)) :
    ∀ st : ScanSt,
      ((l.foldl scanStep st).up_check, (l.foldl scanStep st).up_vert) =
        trackMax (fun p => p.2.y) l (st.up_check, st.up_vert) := by
  induction l with
  | nil => intro st; rfl
  | cons p l ih =>
    intro st
    rw [List.foldl_cons, ih (scanStep st p)]
    simp only [trackMax]
    rw [scanStep_up]

theorem scan_fold_hi (l : List (Nat × Vec3)) :
    ∀ st : ScanSt,
      ((l.foldl scanStep st).side_check_hi, (l.foldl scanStep st).side_vert_src) =
        trackMax (fun p => p.2.x) l (st.side_check_hi, st.side_vert_src) := by
  induction l with
  | nil => intro st; rfl
  | cons p l ih =>
    intro st
    rw [List.foldl_cons, ih (scanStep st p)]
    simp only [trackMax]
    rw [scanStep_hi]

theorem scan_fold_lo (l : List (Nat × Vec3)) :
    ∀ st : ScanSt, st.side_check_lo ≤ st.side_check_hi →
      ((l.foldl scanStep st).side_check_lo, (l.foldl scanStep st).side_vert_dest) =
        trackMin (fun p => p.2.x) l (st.side_check_lo, st.side_vert_dest) := by
  induction l with
  | nil => intro st _; rfl
  | cons p l ih =>
    intro st hinv
    rw [List.foldl_cons, ih (scanStep st p) (scanStep_inv st p hinv)]
    simp only [trackMin]
    rw [scanStep_lo st p hinv]

/-! ### Parsing `"M.vtx[n]"` -/

theorem not_mem_natStr {c : Char} (hc : c.isDigit = false) (n : Nat) : c ∉ natStr n := by
  intro hmem
  have := natStr_digits n c hmem
  rw [hc] at this
  exact Bool.false_ne_true this

theorem parse_vtxName (M : PyStr) (n : Nat) (hdot : '.' ∉ M) :
    pySplitChar '.' (vtxName M n) = [M, 'v' :: 't' :: 'x' :: '[' :: (natStr n ++ [']'])] := by
  have h1 : vtxName M n = M ++ '.' :: ('v' :: 't' :: 'x' :: '[' :: (natStr n ++ [']'])) := by
    simp [vtxName, vtxL]
  rw [h1, pySplitChar_append _ hdot]
  congr 1
  apply pySplitChar_no_sep
  intro hmem
  simp only [List.mem_cons] at hmem
  rcases hmem with h | h | h | h | h
  · exact absurd h (by decide)
  · exact absurd h (by decide)
  · exact absurd h (by decide)
  · exact absurd h (by decide)
  · rcases List.mem_append.mp h with h2 | h2
    · exact not_mem_natStr (by decide) n h2
    · rw [List.mem_singleton] at h2
      exact absurd h2 (by decide)

theorem parse_vtx_brackets (n : Nat) :
    pySplitChar '[' ('v' :: 't' :: 'x' :: '[' :: (natStr n ++ [']'])) =
      [['v', 't', 'x'], natStr n ++ [']']] := by
  have h : ('v' :: 't' :: 'x' :: '[' :: (natStr n ++ [']'])) =
      ['v', 't', 'x'] ++ '[' :: (natStr n ++ [']']) := rfl
  rw [h, pySplitChar_append _ (by decide)]
  congr 1
  apply pySplitChar_no_sep
  intro hmem
  rcases List.mem_append.mp hmem with h2 | h2
  · exact not_mem_natStr (by decide) n h2
  · rw [List.mem_singleton] at h2
    exact absurd h2 (by decide)

theorem parse_close (n : Nat) :
    pySplitChar ']' (natStr n ++ [']']) = [natStr n, []] := by
  have h : natStr n ++ [']'] = natStr n ++ ']' :: [] := rfl
  rw [h, pySplitChar_append _ (not_mem_natStr (by decide) n)]
  rfl

/-! ### Assembling the scan characterisation -/

theorem foldMax_map (f : Nat → Vec3) (g : Nat × Vec3 → Int) (l : List Nat) (a : Int) :
    foldMax g a (l.map (fun k => (k, f k))) = (l.map (fun k => g (k, f k))).foldl max a := by
  simp only [foldMax, List.foldl_map]

theorem foldMin_map (f : Nat → Vec3) (g : Nat × Vec3 → Int) (l : List Nat) (a : Int) :
    foldMin g a (l.map (fun k => (k, f k))) = (l.map (fun k => g (k, f k))).foldl min a := by
  simp only [foldMin, List.foldl_map]

theorem find?_pairs (posOf : Nat → Vec3) (l : List Nat) (pr : Nat × Vec3 → Bool)
    (q : Nat × Vec3) (h : (l.map (fun k => (k, posOf k))).find? pr = some q) :
    l.find? (fun k => pr (k, posOf k)) = some q.1 := by
  rw [List.find?_map] at h
  rcases ho : l.find? (pr ∘ fun k => (k, posOf k)) with _ | k0
  · rw [ho] at h
    simp at h
  · rw [ho] at h
    have hq : (k0, posOf k0) = q := by
      simp only [Option.map_some'] at h
      injection h
    have h2 : l.find? (fun k => pr (k, posOf k)) = some k0 := ho
    rw [h2, ← hq]

theorem foldMax_cons (g : Nat × Vec3 → Int) (a : Int) (p : Nat × Vec3) (l : List (Nat × Vec3)) :
    foldMax g a (p :: l) = foldMax g (max a (g p)) l := rfl

theorem foldMin_cons (g : Nat × Vec3 → Int) (a : Int) (p : Nat × Vec3) (l : List (Nat × Vec3)) :
    foldMin g a (p :: l) = foldMin g (min a (g p)) l := rfl

/-- What the `src_verts` loop computes, against specification-side
`max?`/`min?`/`find?`: `up_vert` is the first connected vertex attaining the
greatest y; `side_vert_src` is the first connected vertex attaining the
greatest x when that maximum strictly exceeds the first vertex's x, and the
initial value `0` otherwise; symmetrically for `side_vert_dest` with the
least x. -/
theorem scan_result (posOf : Nat → Vec3) (id0 : Nat) (rest : List Nat) (my mx mn : Int)
    (fin : ScanSt)
    (hfin : ((id0 :: rest).zip ((id0 :: rest).map posOf)).foldl scanStep
        ⟨(posOf id0).y, id0, (posOf id0).x, (posOf id0).x, 0, 0⟩ = fin)
    (hmy : ((id0 :: rest).map (fun k => (posOf k).y)).max? = some my)
    (hmx : ((id0 :: rest).map (fun k => (posOf k).x)).max? = some mx)
    (hmn : ((id0 :: rest).map (fun k => (posOf k).x)).min? = some mn) :
    (id0 :: rest).find? (fun v => (posOf v).y == my) = some fin.up_vert ∧
    (if mx > (posOf id0).x then
        (id0 :: rest).find? (fun v => (posOf v).x == mx) = some fin.side_vert_src
      else fin.side_vert_src = 0) ∧
    (if mn < (posOf id0).x then
        (id0 :: rest).find? (fun v => (posOf v).x == mn) = some fin.side_vert_dest
      else fin.side_vert_dest = 0) := by
  have hzip : (id0 :: rest).zip ((id0 :: rest).map posOf)
      = (id0 :: rest).map (fun k => (k, posOf k)) :=
    (List.map_prod_left_eq_zip posOf).symm
  rw [hzip] at hfin
  have hpairs_cons : (id0 :: rest).map (fun k => (k, posOf k))
      = (id0, posOf id0) :: rest.map (fun k => (k, posOf k)) := List.map_cons _ _ _
  have hmyv : foldMax (fun p => p.2.y) (posOf id0).y
      ((id0 :: rest).map (fun k => (k, posOf k))) = my := by
    rw [List.map_cons, List.max?_cons'] at hmy
    have h2 := Option.some.inj hmy
    rw [hpairs_cons, foldMax_cons, max_self, ← h2]
    exact foldMax_map posOf _ rest _
  have hmxv : foldMax (fun p => p.2.x) (posOf id0).x
      ((id0 :: rest).map (fun k => (k, posOf k))) = mx := by
    rw [List.map_cons, List.max?_cons'] at hmx
    have h2 := Option.some.inj hmx
    rw [hpairs_cons, foldMax_cons, max_self, ← h2]
    exact foldMax_map posOf _ rest _
  have hmnv : foldMin (fun p => p.2.x) (posOf id0).x
      ((id0 :: rest).map (fun k => (k, posOf k))) = mn := by
    rw [List.map_cons, List.min?_cons'] at hmn
    have h2 := Option.some.inj hmn
    rw [hpairs_cons, foldMin_cons, min_self, ← h2]
    exact foldMin_map posOf _ rest _
  have hy0le : (posOf id0).y ≤ my := by
    rw [← hmyv, hpairs_cons, foldMax_cons, max_self]
    exact foldMax_ge_init _ _ _
  have hx0le : (posOf id0).x ≤ mx := by
    rw [← hmxv, hpairs_cons, foldMax_cons, max_self]
    exact foldMax_ge_init _ _ _
  have hx0ge : mn ≤ (posOf id0).x := by
    rw [← hmnv, hpairs_cons, foldMin_cons, min_self]
    exact foldMin_le_init _ _ _
  have hup_pair := scan_fold_up ((id0 :: rest).map (fun k => (k, posOf k)))
    ⟨(posOf id0).y, id0, (posOf id0).x, (posOf id0).x, 0, 0⟩
  rw [hfin] at hup_pair
  have hupv : fin.up_vert
      = (trackMax (fun p => p.2.y) ((id0 :: rest).map (fun k => (k, posOf k)))
          ((posOf id0).y, id0)).2 := congrArg Prod.snd hup_pair
  have hhi_pair := scan_fold_hi ((id0 :: rest).map (fun k => (k, posOf k)))
    ⟨(posOf id0).y, id0, (posOf id0).x, (posOf id0).x, 0, 0⟩
  rw [hfin] at hhi_pair
  have hsv : fin.side_vert_src
      = (trackMax (fun p => p.2.x) ((id0 :: rest).map (fun k => (k, posOf k)))
          ((posOf id0).x, 0)).2 := congrArg Prod.snd hhi_pair
  have hlo_pair := scan_fold_lo ((id0 :: rest).map (fun k => (k, posOf k)))
    ⟨(posOf id0).y, id0, (posOf id0).x, (posOf id0).x, 0, 0⟩ (le_refl _)
  rw [hfin] at hlo_pair
  have hdv : fin.side_vert_dest
      = (trackMin (fun p => p.2.x) ((id0 :: rest).map (fun k => (k, posOf k)))
          ((posOf id0).x, 0)).2 := congrArg Prod.snd hlo_pair
  refine ⟨?_, ?_, ?_⟩
  · by_cases hgt : my > (posOf id0).y
    · obtain ⟨q, hq1, hq2⟩ :=
        (trackMax_spec (fun p => p.2.y) ((id0 :: rest).map (fun k => (k, posOf k)))
          (posOf id0).y id0).1 (by rw [hmyv]; exact hgt)
      rw [hmyv] at hq1
      have hfind := find?_pairs posOf (id0 :: rest) _ q hq1
      rw [hupv, hq2]
      exact hfind
    · have h2 := (trackMax_spec (fun p => p.2.y) ((id0 :: rest).map (fun k => (k, posOf k)))
        (posOf id0).y id0).2 (by rw [hmyv]; exact hgt)
      rw [hupv, h2]
      have heq : (posOf id0).y = my := le_antisymm hy0le (not_lt.mp hgt)
      rw [List.find?_cons_of_pos _ (by simp [heq])]
  · by_cases hgt : mx > (posOf id0).x
    · rw [if_pos hgt]
      obtain ⟨q, hq1, hq2⟩ :=
        (trackMax_spec (fun p => p.2.x) ((id0 :: rest).map (fun k => (k, posOf k)))
          (posOf id0).x 0).1 (by rw [hmxv]; exact hgt)
      rw [hmxv] at hq1
      have hfind := find?_pairs posOf (id0 :: rest) _ q hq1
      rw [hsv, hq2]
      exact hfind
    · rw [if_neg hgt]
      have h2 := (trackMax_spec (fun p => p.2.x) ((id0 :: rest).map (fun k => (k, posOf k)))
        (posOf id0).x 0).2 (by rw [hmxv]; exact hgt)
      rw [hsv, h2]
  · by_cases hgt : mn < (posOf id0).x
    · rw [if_pos hgt]
      obtain ⟨q, hq1, hq2⟩ :=
        (trackMin_spec (fun p => p.2.x) ((id0 :: rest).map (fun k => (k, posOf k)))
          (posOf id0).x 0).1 (by rw [hmnv]; exact hgt)
      rw [hmnv] at hq1
      have hfind := find?_pairs posOf (id0 :: rest) _ q hq1
      rw [hdv, hq2]
      exact hfind
    · rw [if_neg hgt]
      have h2 := (trackMin_spec (fun p => p.2.x) ((id0 :: rest).map (fun k => (k, posOf k)))
        (posOf id0).x 0).2 (by rw [hmnv]; exact hgt)
      rw [hdv, h2]

/-- C2 (amended): for a central vertex string `"M.vtx[n]"` (mesh name free of
`"."` and of the decimal string of `n`) whose vertex has at least one
connected vertex, `src_verts` queries the world position of `"M.vtx[k]"` for
each connected vertex `k` and returns `[[n, u, s], [n, u, d]]` where `u` is
the first connected vertex attaining the greatest y world coordinate, `s` is
the first connected vertex attaining the greatest x world coordinate when
that maximum strictly exceeds the x coordinate of the first connected vertex
and `0` otherwise, and `d` likewise for the least x world coordinate. -/
theorem src_verts_spec (h : Host) (ax M : PyStr) (n : Nat) (shape : PyStr)
    (shs : List PyStr) (id0 : Nat) (rest : List Nat) (my mx mn : Int)
    (hdot : '.' ∉ M)
    (hclash : hasSub M (natStr n) = false)
    (hsh : h.shapes M = shape :: shs)
    (hconn : h.connectedVerts shape n = id0 :: rest)
    (hmy : ((id0 :: rest).map (fun k => (h.worldPos (vtxName M k)).y)).max? = some my)
    (hmx : ((id0 :: rest).map (fun k => (h.worldPos (vtxName M k)).x)).max? = some mx)
    (hmn : ((id0 :: rest).map (fun k => (h.worldPos (vtxName M k)).x)).min? = some mn) :
    ∃ u s d,
      src_verts h (vtxName M n) ax =
        (HostCall.listRelQ M ::
          (id0 :: rest).map (fun k => HostCall.xformQ (vtxName M k)),
         some [[n, u, s], [n, u, d]]) ∧
      (id0 :: rest).find? (fun v => (h.worldPos (vtxName M v)).y == my) = some u ∧
      (if mx > (h.worldPos (vtxName M id0)).x then
          (id0 :: rest).find? (fun v => (h.worldPos (vtxName M v)).x == mx) = some s
        else s = 0) ∧
      (if mn < (h.worldPos (vtxName M id0)).x then
          (id0 :: rest).find? (fun v => (h.worldPos (vtxName M v)).x == mn) = some d
        else d = 0) := by
  have hqueries :
      (id0 :: rest).map (fun each => pyReplace (vtxName M n) (natStr n) (natStr each))
        = (id0 :: rest).map (fun k => vtxName M k) :=
    List.map_congr_left (fun k _ => pyReplace_vtxName M n k hclash)
  have e1 := parse_vtxName M n hdot
  have e2 : ([M, 'v' :: 't' :: 'x' :: '[' :: (natStr n ++ [']'])] : List PyStr).headD [] = M :=
    rfl
  have e3 : ([M, 'v' :: 't' :: 'x' :: '[' :: (natStr n ++ [']'])] : List PyStr).getLastD []
      = 'v' :: 't' :: 'x' :: '[' :: (natStr n ++ [']']) := rfl
  have e4 := parse_vtx_brackets n
  have e5 : ([['v', 't', 'x'], natStr n ++ [']']] : List PyStr).getLastD []
      = natStr n ++ [']'] := rfl
  have e6 := parse_close n
  have e7 : ([natStr n, []] : List PyStr).headD [] = natStr n := rfl
  have hposmap :
      List.map h.worldPos
          ((id0 :: rest).map (fun each => pyReplace (vtxName M n) (natStr n) (natStr each)))
        = (id0 :: rest).map (fun k => h.worldPos (vtxName M k)) := by
    rw [hqueries, List.map_map]
    rfl
  have htrmap :
      List.map HostCall.xformQ
          ((id0 :: rest).map (fun each => pyReplace (vtxName M n) (natStr n) (natStr each)))
        = (id0 :: rest).map (fun k => HostCall.xformQ (vtxName M k)) := by
    rw [hqueries, List.map_map]
    rfl
  simp only [src_verts, e1, e2, e3, e4, e5, e6, e7, pyInt_natStr, hsh, List.head?, hconn]
  simp only [hposmap, htrmap]
  simp only [List.map_cons, List.singleton_append]
  have hscan := scan_result (fun k => h.worldPos (vtxName M k)) id0 rest my mx mn _ rfl
    hmy hmx hmn
  exact ⟨_, _, _, rfl, hscan.1, hscan.2.1, hscan.2.2⟩

/-- C2 (counterexample): on the central vertex `"m1.vtx[1]"` of mesh `m1`
with the single connected vertex 2, the claim fails twice: the queried name
is `"m2.vtx[2]"` (every occurrence of `"1"` is replaced, corrupting the mesh
name), not `"m1.vtx[2]"`; and the returned side vertices are the initial
value `0`, not the connected vertex 2 with the extreme x coordinates. -/
theorem src_verts_counterexample :
    src_verts hostC2 (pys "m1.vtx[1]") (pys "x") =
      ([HostCall.listRelQ (pys "m1"), HostCall.xformQ (pys "m2.vtx[2]")],
        some [[1, 2, 0], [1, 2, 0]]) ∧
    HostCall.xformQ (pys "m1.vtx[2]") ∉ (src_verts hostC2 (pys "m1.vtx[1]") (pys "x")).1 ∧
    (src_verts hostC2 (pys "m1.vtx[1]") (pys "x")).2 ≠ some [[1, 2, 2], [1, 2, 2]] :=
  ⟨by decide, by decide, by decide⟩

/-- C2 witness: the amended statement applied in the `hostC2w` scene at
central vertex `"m.vtx[1]"`, connected vertices 2 and 3, greatest y = 5,
greatest x = 4 (strictly above the first vertex's x = 1), least x = 1. -/
theorem src_verts_spec_witness :
    ∃ u s d,
      src_verts hostC2w (vtxName (pys "m") 1) (pys "x") =
        (HostCall.listRelQ (pys "m") ::
          ([2, 3] : List Nat).map (fun k => HostCall.xformQ (vtxName (pys "m") k)),
         some [[1, u, s], [1, u, d]]) ∧
      ([2, 3] : List Nat).find?
          (fun v => (hostC2w.worldPos (vtxName (pys "m") v)).y == (5 : Int)) = some u ∧
      (if (4 : Int) > (hostC2w.worldPos (vtxName (pys "m") 2)).x then
          ([2, 3] : List Nat).find?
              (fun v => (hostC2w.worldPos (vtxName (pys "m") v)).x == (4 : Int)) = some s
        else s = 0) ∧
      (if (1 : Int) < (hostC2w.worldPos (vtxName (pys "m") 2)).x then
          ([2, 3] : List Nat).find?
              (fun v => (hostC2w.worldPos (vtxName (pys "m") v)).x == (1 : Int)) = some d
        else d = 0) :=
  src_verts_spec hostC2w (pys "x") (pys "m") 1 (pys "mShape") [] 2 [3] 5 4 1
    (by decide) (by decide) (by decide) (by decide) (by decide) (by decide) (by decide)

/-- C3 (counterexample): on the mesh name `"a_l_b_l_c"` the code replaces
every occurrence of `"_l_"`, not only the first one: the duplicate is
requested under `"a_r_b_r_c"`, not under `"a_r_b_l_c"` as the claim
predicts. -/
theorem create_mirrored_mesh_counterexample :
    (create_mirrored_mesh (pys "a_l_b_l_c") (pys "x")).1 = pys "a_r_b_r_c" ∧
    (create_mirrored_mesh (pys "a_l_b_l_c") (pys "x")).1 ≠ pys "a_r_b_l_c" :=
  ⟨by decide, by decide⟩

/-- C3 (amended): `create_mirrored_mesh` returns the input name with every
left-to-right non-overlapping occurrence of `"_l_"` replaced by `"_r_"` when
`"_l_"` occurs in the name (equivalently: split on all such occurrences and
join with `"_r_"`), and otherwise with every occurrence of `"_r_"` replaced
by `"_l_"`; it requests a duplicate of the mesh under that returned name,
sets the duplicate's scale attribute along the given axis to `-1`, and
freezes the scale transformation. -/
theorem create_mirrored_mesh_spec (mesh ax : PyStr) :
    ((create_mirrored_mesh mesh ax).1 =
      if hasSub mesh (pys "_l_") = true then
        pyJoin (pys "_r_") (pySplitStr mesh (pys "_l_"))
      else pyJoin (pys "_l_") (pySplitStr mesh (pys "_r_"))) ∧
    (create_mirrored_mesh mesh ax).2 =
      [HostCall.duplicate mesh (create_mirrored_mesh mesh ax).1,
       HostCall.setAttr ((create_mirrored_mesh mesh ax).1 ++ pys ".s" ++ ax) (-1),
       HostCall.makeIdentity (create_mirrored_mesh mesh ax).1] := by
  constructor
  · simp only [create_mirrored_mesh]
    split
    · exact pyReplace_eq_join mesh (pys "_l_") (pys "_r_")
    · exact pyReplace_eq_join mesh (pys "_r_") (pys "_l_")
  · rfl

/-- C9: a mesh name containing neither `"_l_"` nor `"_r_"` is returned
unchanged by `create_mirrored_mesh`, so the duplicate is requested under the
same name as the original mesh. -/
theorem create_mirrored_mesh_id (mesh ax : PyStr)
    (hl : hasSub mesh (pys "_l_") = false) (hr : hasSub mesh (pys "_r_") = false) :
    (create_mirrored_mesh mesh ax).1 = mesh := by
  simp only [create_mirrored_mesh, hl, Bool.false_eq_true, if_false]
  exact pyReplace_id_of_no_sub _ hr

/-- C9 witness: the name `"abc"` contains neither side marker and is
returned unchanged. -/
theorem create_mirrored_mesh_id_witness :
    hasSub (pys "abc") (pys "_l_") = false ∧ hasSub (pys "abc") (pys "_r_") = false ∧
    (create_mirrored_mesh (pys "abc") (pys "x")).1 = pys "abc" :=
  ⟨by decide, by decide, create_mirrored_mesh_id (pys "abc") (pys "x") (by decide) (by decide)⟩

theorem findTransform_snd (h : Host) :
    ∀ nodes : List PyStr,
      (findTransform h nodes).2 =
        ((nodes.find? (fun nd => h.nodeType nd == pys "transform")).getD []) := by
  intro nodes
  induction nodes with
  | nil => rfl
  | cons nd rest ih =>
    by_cases hc : (h.nodeType nd == pys "transform") = true
    · simp only [findTransform, hc, if_true, List.find?_cons]
      rfl
    · have hc' : (h.nodeType nd == pys "transform") = false := by
        simpa using hc
      simp only [findTransform, hc', Bool.false_eq_true, if_false, List.find?_cons]
      exact ih

/-- C5: `import_src_mesh` issues the file-import call first and returns the
first newly created node whose type is `"transform"`, or the empty string
when no newly created node is a transform. -/
theorem import_src_mesh_spec (h : Host) (p : PyStr) :
    (import_src_mesh h p).1.head? = some (HostCall.fileImport p) ∧
    (import_src_mesh h p).2 =
      ((h.importedNodes p).find? (fun nd => h.nodeType nd == pys "transform")).getD [] :=
  ⟨rfl, findTransform_snd h _⟩

/-- C6: `export_dest_mesh` replaces the current selection with exactly the
given mesh, then issues one export call, of type `"OBJexport"`, with `force`
and `exportSelected` set and `constructionHistory` off, at a moment when the
selection is exactly the given mesh, and it leaves the selection empty. -/
theorem export_dest_mesh_spec (s : SceneSt) (mesh path : PyStr) :
    (runCalls s (export_dest_mesh mesh path)).selection = [] ∧
    (export_dest_mesh mesh path)[1]? =
      some (HostCall.fileExportSelected path (pys "OBJexport") true true true false
        objOptions) ∧
    (runCalls s ((export_dest_mesh mesh path).take 1)).selection = [mesh] :=
  ⟨rfl, rfl, rfl⟩

/-- C7: each core function that consults the host depends only on the host's
responses to the queries it makes: hosts agreeing on those response maps
produce identical results and identical call traces, whatever the rest of
the host state is (the remaining core functions are host-independent by
construction, as their embeddings take no `Host` argument). -/
theorem core_deterministic (h1 h2 : Host) (p cv ax : PyStr) :
    (h1.importedNodes = h2.importedNodes → h1.nodeType = h2.nodeType →
      import_src_mesh h1 p = import_src_mesh h2 p) ∧
    (h1.shapes = h2.shapes → h1.connectedVerts = h2.connectedVerts →
      h1.worldPos = h2.worldPos → src_verts h1 cv ax = src_verts h2 cv ax) := by
  constructor
  · intro hi hn
    have hft : ∀ l, findTransform h1 l = findTransform h2 l := by
      intro l
      induction l with
      | nil => rfl
      | cons nd rest ih => simp only [findTransform, hn, ih]
    simp only [import_src_mesh, hi, hft]
  · intro hs hc hw
    simp only [src_verts, hs, hc, hw]

/-- C7 witness: two hosts differing only in the scene selection run
`import_src_mesh` and `src_verts` to identical traces and results. -/
theorem core_deterministic_witness :
    import_src_mesh hostBuildW (pys "f.obj") = import_src_mesh hostSelB (pys "f.obj") ∧
    src_verts hostBuildW (pys "m.vtx[0]") (pys "x")
      = src_verts hostSelB (pys "m.vtx[0]") (pys "x") :=
  ⟨(core_deterministic hostBuildW hostSelB (pys "f.obj") (pys "m.vtx[0]") (pys "x")).1
      rfl rfl,
   (core_deterministic hostBuildW hostSelB (pys "f.obj") (pys "m.vtx[0]") (pys "x")).2
      rfl rfl rfl⟩

/-- C4 (code-bug evidence): with an empty textfield and an empty scene
selection, `build` raises `IndexError` from `cmds.ls(selection=True,
flatten=True)[0]` before the logging branch is reached, so no error is
logged (the `LOG.error` in the `else` branch is unreachable for an empty
selection); the only host call is the `ls` query, which leaves any scene
state unchanged.  With a non-empty textfield naming an object that does not
exist, the error is logged, but the function then falls through towards
`create_mirrored_mesh` and dies on the unbound local `mesh`; only the
`objExists` query is issued and the scene is again unchanged. -/
theorem build_existence_check_behaviour :
    build host0 ⟨[], pys "x", true, []⟩
      = { logs := [], calls := [HostCall.lsSelQ], exn := some PyErr.indexError } ∧
    (∀ s : SceneSt, runCalls s [HostCall.lsSelQ] = s) ∧
    build host0 ⟨pys "m.vtx[0]", pys "x", true, []⟩
      = { logs := [LogMsg.vertexNotInScene],
          calls := [HostCall.objExistsQ (pys "m.vtx[0]")],
          exn := some PyErr.unboundLocal } ∧
    (∀ s : SceneSt, runCalls s [HostCall.objExistsQ (pys "m.vtx[0]")] = s) :=
  ⟨by decide, fun _ => rfl, by decide, fun _ => rfl⟩

/-- C10: after any successful `transfer_vert_order` run, the scene selection
is empty and the destination mesh's construction history has been deleted;
the calls after `meshRemap` (the selection, the normal thaw acting on the
selection, the deselect, the history delete) modify no mesh other than the
destination, so in particular they leave the source mesh's geometry and
history untouched. -/
theorem transfer_vert_order_frame (src dest : PyStr) (ids : List (List Nat))
    (tr : List HostCall) (heq : transfer_vert_order src dest ids = (tr, some ())) :
    (∀ s : SceneSt, (runCalls s tr).selection = [] ∧
      ((runCalls s tr).meshes dest).hasHistory = false) ∧
    (∀ (s : SceneSt) (m : PyStr), m ≠ dest →
      (runCalls s (tr.drop 1)).meshes m = s.meshes m) := by
  simp only [transfer_vert_order] at heq
  split at heq
  · split at heq
    · obtain rfl : tr = _ := (congrArg Prod.fst heq).symm
      constructor
      · intro s
        constructor
        · rfl
        · simp only [runCalls, List.foldl_cons, List.foldl_nil, stepCall, updMesh,
            dropHistory, beq_self_eq_true, if_true]
      · intro s m hm
        have hmd : (m == dest) = false := beq_eq_false_iff_ne.mpr hm
        show (runCalls s [HostCall.selectReplace dest, HostCall.polyNormalUnfreeze,
          HostCall.selectDeselectAll, HostCall.deleteHistory dest]).meshes m = s.meshes m
        simp only [runCalls, List.foldl_cons, List.foldl_nil, stepCall, updMesh,
          List.contains_cons, List.contains_nil, Bool.or_false, hmd,
          Bool.false_eq_true, if_false]
    · exact absurd (congrArg Prod.snd heq) (by simp)
  · exact absurd (congrArg Prod.snd heq) (by simp)

/-- C10 witness: a concrete successful run on meshes `a`, `b` with vertex ids
`[0,1,2]` and `[3,4,5]`, from a scene with a non-empty selection and history
everywhere. -/
theorem transfer_vert_order_frame_witness :
    ((runCalls scene0
        [HostCall.meshRemap (pys "a.vtx[0]") (pys "a.vtx[1]") (pys "a.vtx[2]")
          (pys "b.vtx[3]") (pys "b.vtx[4]") (pys "b.vtx[5]"),
         HostCall.selectReplace (pys "b"), HostCall.polyNormalUnfreeze,
         HostCall.selectDeselectAll, HostCall.deleteHistory (pys "b")]).selection = [] ∧
      ((runCalls scene0
        [HostCall.meshRemap (pys "a.vtx[0]") (pys "a.vtx[1]") (pys "a.vtx[2]")
          (pys "b.vtx[3]") (pys "b.vtx[4]") (pys "b.vtx[5]"),
         HostCall.selectReplace (pys "b"), HostCall.polyNormalUnfreeze,
         HostCall.selectDeselectAll, HostCall.deleteHistory (pys "b")]).meshes
          (pys "b")).hasHistory = false) ∧
    (runCalls scene0
        ([HostCall.meshRemap (pys "a.vtx[0]") (pys "a.vtx[1]") (pys "a.vtx[2]")
          (pys "b.vtx[3]") (pys "b.vtx[4]") (pys "b.vtx[5]"),
         HostCall.selectReplace (pys "b"), HostCall.polyNormalUnfreeze,
         HostCall.selectDeselectAll, HostCall.deleteHistory (pys "b")].drop 1)).meshes
        (pys "a") = scene0.meshes (pys "a") :=
  ⟨(transfer_vert_order_frame (pys "a") (pys "b") [[0, 1, 2], [3, 4, 5]] _
      (by decide)).1 scene0,
   (transfer_vert_order_frame (pys "a") (pys "b") [[0, 1, 2], [3, 4, 5]] _
      (by decide)).2 scene0 (pys "a") (by decide)⟩

theorem src_verts_trace_shape (h : Host) (cv ax : PyStr) :
    ∀ c ∈ (src_verts h cv ax).1,
      (∃ m, c = HostCall.listRelQ m) ∨ ∃ q, c = HostCall.xformQ q := by
  intro c hc
  simp only [src_verts] at hc
  split at hc
  · simp only [List.mem_singleton] at hc
    exact Or.inl ⟨_, hc⟩
  · split at hc
    · simp only [List.mem_singleton] at hc
      exact Or.inl ⟨_, hc⟩
    · split at hc
      · rcases List.mem_append.mp hc with h1 | h1
        · simp only [List.mem_singleton] at h1
          exact Or.inl ⟨_, h1⟩
        · obtain ⟨x, _, hx⟩ := List.mem_map.mp h1
          exact Or.inr ⟨_, hx.symm⟩
      · rcases List.mem_append.mp hc with h1 | h1
        · simp only [List.mem_singleton] at h1
          exact Or.inl ⟨_, h1⟩
        · obtain ⟨x, _, hx⟩ := List.mem_map.mp h1
          exact Or.inr ⟨_, hx.symm⟩

theorem setAttr_notin_transfer (src dest : PyStr) (ids : List (List Nat))
    (a : PyStr) (v : Int) :
    HostCall.setAttr a v ∉ (transfer_vert_order src dest ids).1 := by
  intro hmem
  simp only [transfer_vert_order] at hmem
  split at hmem
  · split at hmem
    · simp at hmem
    · simp at hmem
  · simp at hmem

theorem setAttr_notin_export (mesh path a : PyStr) (v : Int) :
    HostCall.setAttr a v ∉ export_dest_mesh mesh path := by
  simp [export_dest_mesh]

theorem setAttr_create (mesh ax a : PyStr) (v : Int)
    (hmem : HostCall.setAttr a v ∈ (create_mirrored_mesh mesh ax).2) :
    ∃ nn, a = nn ++ pys ".s" ++ ax := by
  simp only [create_mirrored_mesh, List.mem_cons, List.mem_singleton] at hmem
  rcases hmem with h | h | h
  · exact absurd h (by simp)
  · injection h with h1 _
    exact ⟨_, h1⟩
  · exact absurd h (by simp)

theorem buildGo_setAttr (h : Host) (logs0 : List LogMsg) (calls0 : List HostCall)
    (cv mesh : PyStr) (ec : Bool) (ed : PyStr) (a : PyStr) (v : Int)
    (hc0 : HostCall.setAttr a v ∉ calls0)
    (hmem : HostCall.setAttr a v ∈ (buildGo h logs0 calls0 cv mesh ec ed).calls) :
    ∃ nn, a = nn ++ pys ".sx" := by
  have hdisp : HostCall.setAttr a v ∈ (create_mirrored_mesh mesh (pys "x")).2 →
      ∃ nn, a = nn ++ pys ".sx" := by
    intro hmem2
    obtain ⟨nn, hnn⟩ := setAttr_create mesh (pys "x") a v hmem2
    exact ⟨nn, hnn.trans (by rw [List.append_assoc]; rfl)⟩
  have hsv : HostCall.setAttr a v ∉ (src_verts h cv (pys "x")).1 := by
    intro hx
    rcases src_verts_trace_shape h cv (pys "x") _ hx with ⟨m, hm⟩ | ⟨q, hq⟩
    · exact absurd hm (by simp)
    · exact absurd hq (by simp)
  simp only [buildGo] at hmem
  split at hmem
  · rcases List.mem_append.mp hmem with h1 | h1
    · rcases List.mem_append.mp h1 with h2 | h2
      · exact absurd h2 hc0
      · exact hdisp h2
    · exact absurd h1 hsv
  · split at hmem
    · rcases List.mem_append.mp hmem with h1 | h1
      · rcases List.mem_append.mp h1 with h2 | h2
        · rcases List.mem_append.mp h2 with h3 | h3
          · exact absurd h3 hc0
          · exact hdisp h3
        · exact absurd h2 hsv
      · exact absurd h1 (setAttr_notin_transfer _ _ _ _ _)
    · split at hmem
      · split at hmem
        · rcases List.mem_append.mp hmem with h1 | h1
          · rcases List.mem_append.mp h1 with h2 | h2
            · rcases List.mem_append.mp h2 with h3 | h3
              · rcases List.mem_append.mp h3 with h4 | h4
                · rcases List.mem_append.mp h4 with h5 | h5
                  · exact absurd h5 hc0
                  · exact hdisp h5
                · exact absurd h4 hsv
              · exact absurd h3 (setAttr_notin_transfer _ _ _ _ _)
            · simp at h2
          · exact absurd h1 (setAttr_notin_export _ _ _ _)
        · rcases List.mem_append.mp hmem with h1 | h1
          · rcases List.mem_append.mp h1 with h2 | h2
            · rcases List.mem_append.mp h2 with h3 | h3
              · rcases List.mem_append.mp h3 with h4 | h4
                · rcases List.mem_append.mp h4 with h5 | h5
                  · exact absurd h5 hc0
                  · exact hdisp h5
                · exact absurd h4 hsv
              · exact absurd h3 (setAttr_notin_transfer _ _ _ _ _)
            · simp at h2
          · exact absurd h1 (setAttr_notin_export _ _ _ _)
      · rcases List.mem_append.mp hmem with h1 | h1
        · rcases List.mem_append.mp h1 with h2 | h2
          · rcases List.mem_append.mp h2 with h3 | h3
            · exact absurd h3 hc0
            · exact hdisp h3
          · exact absurd h2 hsv
        · exact absurd h1 (setAttr_notin_transfer _ _ _ _ _)

/-- C8: `build` never reads the mirror-axis radio state, so runs differing
only in that state are identical, and every scale attribute `build` ever
sets ends in `".sx"`: the duplicate is always flipped across the x axis,
whatever the GUI's Mirror Axis option says. -/
theorem build_always_mirror_x (h : Host) (tf ax ax' : PyStr) (ec : Bool) (ed : PyStr) :
    build h ⟨tf, ax, ec, ed⟩ = build h ⟨tf, ax', ec, ed⟩ ∧
    ∀ (a : PyStr) (v : Int), HostCall.setAttr a v ∈ (build h ⟨tf, ax, ec, ed⟩).calls →
      ∃ nn, a = nn ++ pys ".sx" := by
  refine ⟨rfl, ?_⟩
  intro a v hmem
  simp only [build, buildCore] at hmem
  split at hmem
  · split at hmem
    · simp at hmem
    · split at hmem
      · exact buildGo_setAttr h _ _ _ _ _ _ a v (by simp) hmem
      · simp at hmem
  · split at hmem
    · simp at hmem
    · exact buildGo_setAttr h _ _ _ _ _ _ a v (by simp) hmem

/-- C8 witness: a successful textfield-driven build on a concrete scene sets
exactly the attribute `"m.sx"`, and runs with the `y` and `z` radio buttons
selected coincide. -/
theorem build_always_mirror_x_witness :
    build hostBuildW ⟨pys "m.vtx[0]", pys "y", false, []⟩
      = build hostBuildW ⟨pys "m.vtx[0]", pys "z", false, []⟩ ∧
    ∃ nn, pys "m.sx" = nn ++ pys ".sx" :=
  ⟨(build_always_mirror_x hostBuildW (pys "m.vtx[0]") (pys "y") (pys "z") false []).1,
   (build_always_mirror_x hostBuildW (pys "m.vtx[0]") (pys "y") (pys "z") false []).2
      (pys "m.sx") (-1) (by decide)⟩
